import Mathlib

/-!
Verification of the request pipeline of the `abhi-go-sdk` client library:
request signing (HMAC-SHA256 canonicalization), token-bucket rate limiting,
retry transport, transport-chain composition, bearer-token lifecycle, and
the credential vault glue.  Go code is shallowly embedded: byte slices are
`List Nat` (each element a byte value), `time.Time` instants are integer
Unix seconds, `float64` bucket arithmetic is modelled over `ℚ`.
-/

namespace AbhiSdk

/-! ## Bytes and 32-bit word arithmetic (crypto/sha256, crypto/hmac) -/

/-- Byte strings are lists of byte values. -/
abbrev Bytes := List Nat

/-- The constant 2^32, the modulus of 32-bit word arithmetic. -/
def w32 : Nat := 4294967296

/-- Addition modulo 2^32. -/
def add32 (a b : Nat) : Nat := (a + b) % w32

/-- Right rotation of a 32-bit word by `n` bits. -/
def rotr32 (n x : Nat) : Nat :=
  ((x >>> n) + ((x <<< (32 - n)) % w32)) % w32

/-- Logical right shift of a 32-bit word. -/
def shr32 (n x : Nat) : Nat := x >>> n

/-- Bitwise complement of a 32-bit word (assumes `x < 2^32`). -/
def not32 (x : Nat) : Nat := (w32 - 1) - (x % w32)

/-- SHA-256 round constants. -/
def shaK : List Nat :=
  [1116352408, 1899447441, 3049323471, 3921009573, 961987163,
   1508970993, 2453635748, 2870763221, 3624381080, 310598401,
   607225278, 1426881987, 1925078388, 2162078206, 2614888103,
   3248222580, 3835390401, 4022224774, 264347078, 604807628,
   770255983, 1249150122, 1555081692, 1996064986, 2554220882,
   2821834349, 2952996808, 3210313671, 3336571891, 3584528711,
   113926993, 338241895, 666307205, 773529912, 1294757372,
   1396182291, 1695183700, 1986661051, 2177026350, 2456956037,
   2730485921, 2820302411, 3259730800, 3345764771, 3516065817,
   3600352804, 4094571909, 275423344, 430227734, 506948616,
   659060556, 883997877, 958139571, 1322822218, 1537002063,
   1747873779, 1955562222, 2024104815, 2227730452, 2361852424,
   2428436474, 2756734187, 3204031479, 3329325298]

/-- SHA-256 initial hash state. -/
def shaH0 : List Nat :=
  [1779033703, 3144134277, 1013904242, 2773480762,
   1359893119, 2600822924, 528734635, 1541459225]

/-- Big-endian decoding of groups of four bytes into 32-bit words. -/
def bytesToWords : Bytes → List Nat
  | b0 :: b1 :: b2 :: b3 :: rest =>
      (b0 * 16777216 + b1 * 65536 + b2 * 256 + b3) :: bytesToWords rest
  | _ => []

/-- Big-endian encoding of a 32-bit word as four bytes. -/
def wordToBytes (x : Nat) : Bytes :=
  [x / 16777216 % 256, x / 65536 % 256, x / 256 % 256, x % 256]

/-- Big-endian encoding of a 64-bit length as eight bytes. -/
def lenToBytes8 (x : Nat) : Bytes :=
  [x / 72057594037927936 % 256, x / 281474976710656 % 256,
   x / 1099511627776 % 256, x / 4294967296 % 256,
   x / 16777216 % 256, x / 65536 % 256, x / 256 % 256, x % 256]

/-- SHA-256 message padding: append `0x80`, zero bytes to 56 mod 64, then the
bit length as a big-endian 64-bit integer. -/
def shaPad (msg : Bytes) : Bytes :=
  let l := msg.length
  let zeros := (55 + 64 - l % 64) % 64
  msg ++ 0x80 :: List.replicate zeros 0 ++ lenToBytes8 (l * 8)

/-- The small sigma-0 function of the SHA-256 message schedule. -/
def ssig0 (x : Nat) : Nat := (rotr32 7 x) ^^^ (rotr32 18 x) ^^^ (shr32 3 x)

/-- The small sigma-1 function of the SHA-256 message schedule. -/
def ssig1 (x : Nat) : Nat := (rotr32 17 x) ^^^ (rotr32 19 x) ^^^ (shr32 10 x)

/-- The big sigma-0 function of the SHA-256 compression round. -/
def bsig0 (x : Nat) : Nat := (rotr32 2 x) ^^^ (rotr32 13 x) ^^^ (rotr32 22 x)

/-- The big sigma-1 function of the SHA-256 compression round. -/
def bsig1 (x : Nat) : Nat := (rotr32 6 x) ^^^ (rotr32 11 x) ^^^ (rotr32 25 x)

/-- Extend the 16-word block to the 64-word message schedule by appending
`n` further words. -/
def extendSchedule : Nat → List Nat → List Nat
  | 0, w => w
  | n + 1, w =>
      let t := w.length
      let wt := add32 (add32 (ssig1 (w.getD (t - 2) 0)) (w.getD (t - 7) 0))
                      (add32 (ssig0 (w.getD (t - 15) 0)) (w.getD (t - 16) 0))
      extendSchedule n (w ++ [wt])

/-- One SHA-256 compression round; state is the tuple (a,b,c,d,e,f,g,h). -/
def shaRound (st : List Nat) (kw : Nat × Nat) : List Nat :=
  match st with
  | [a, b, c, d, e, f, g, h] =>
      let ch := Nat.xor (e &&& f) (not32 e &&& g)
      let maj := Nat.xor (Nat.xor (a &&& b) (a &&& c)) (b &&& c)
      let t1 := add32 (add32 (add32 h (bsig1 e)) (add32 ch kw.1)) kw.2
      let t2 := add32 (bsig0 a) maj
      [add32 t1 t2, a, b, c, add32 d t1, e, f, g]
  | other => other

/-- Process one 64-byte block, updating the 8-word hash state. -/
def shaBlock (h : List Nat) (block : Bytes) : List Nat :=
  let w := extendSchedule 48 (bytesToWords block)
  let st := (shaK.zip w).foldl (fun s kw => shaRound s kw) h
  (h.zip st).map (fun p => add32 p.1 p.2)

/-- Split a byte list into 64-byte blocks (length assumed a multiple of 64). -/
def toBlocks : Bytes → List Bytes
  | [] => []
  | msg =>
      if h : msg.length ≤ 64 then [msg.take 64]
      else msg.take 64 :: toBlocks (msg.drop 64)
  termination_by msg => msg.length
  decreasing_by
    simp only [List.length_drop]
    omega

/-- SHA-256 digest of a byte string, as 32 bytes. -/
def sha256 (msg : Bytes) : Bytes :=
  let finalState := (toBlocks (shaPad msg)).foldl shaBlock shaH0
  finalState.foldr (fun x acc => wordToBytes x ++ acc) []

/-- The lowercase hexadecimal digit for a value below 16. -/
def hexDigit (n : Nat) : Char :=
  if n < 10 then Char.ofNat (48 + n) else Char.ofNat (87 + n)

/-- Lowercase hexadecimal encoding of a byte string (Go `hex.EncodeToString`). -/
def hexEncodeToString (b : Bytes) : String :=
  String.mk (b.foldr (fun x acc => hexDigit (x / 16 % 16) :: hexDigit (x % 16) :: acc) [])

/-- HMAC-SHA256 (Go `hmac.New(sha256.New, key)`), 64-byte block size. -/
def hmacSha256 (key msg : Bytes) : Bytes :=
  let k0 := if key.length > 64 then sha256 key else key
  let kp := k0 ++ List.replicate (64 - k0.length) 0
  let ipad := kp.map (fun x => x ^^^ 0x36)
  let opad := kp.map (fun x => x ^^^ 0x5c)
  sha256 (opad ++ sha256 (ipad ++ msg))

/-- UTF-8 bytes of a string (Go string-to-byte-slice conversion). -/
def strBytes (s : String) : Bytes := s.toUTF8.toList.map UInt8.toNat

/-! ## Decimal formatting and parsing (strconv.FormatInt / strconv.ParseInt) -/

/-- The ASCII character of a decimal digit. -/
def digitChar (d : Nat) : Char := Char.ofNat (48 + d)

/-- Little-endian decimal digit characters of a natural number. -/
def natDigitsLE (n : Nat) : List Char :=
  if h : n < 10 then [digitChar n]
  else digitChar (n % 10) :: natDigitsLE (n / 10)
  termination_by n
  decreasing_by
    exact Nat.div_lt_self (by omega) (by omega)

/-- Decimal representation of a natural number (no sign, no leading zeros,
`0` rendered as "0"). -/
def natRepr10 (n : Nat) : String := String.mk (natDigitsLE n).reverse

/-- Go `strconv.FormatInt(t, 10)`: decimal form with a leading minus sign
for negative inputs. -/
def formatInt10 (t : Int) : String :=
  if t < 0 then "-" ++ natRepr10 t.natAbs else natRepr10 t.toNat

/-- Numeric value of an ASCII decimal digit character, if it is one. -/
def digitVal (c : Char) : Option Nat :=
  if 48 ≤ c.toNat ∧ c.toNat ≤ 57 then some (c.toNat - 48) else none

/-- Accumulating base-10 evaluation of a digit-character list; fails on any
non-digit character. -/
def parseNatDigits : List Char → Nat → Option Nat
  | [], acc => some acc
  | c :: cs, acc =>
      match digitVal c with
      | some d => parseNatDigits cs (acc * 10 + d)
      | none => none

/-- Go `strconv.ParseInt(s, 10, 64)` restricted to what the pipeline feeds
it: an optional sign followed by at least one decimal digit (the int64
range check is not modelled; the signer only ever produces in-range
timestamps). -/
def parseInt10 (s : String) : Option Int :=
  match s.data with
  | [] => none
  | c :: cs =>
      if c = '-' then
        if cs.isEmpty then none
        else (parseNatDigits cs 0).map (fun n => -(n : Int))
      else if c = '+' then
        if cs.isEmpty then none
        else (parseNatDigits cs 0).map (fun n => (n : Int))
      else (parseNatDigits (c :: cs) 0).map (fun n => (n : Int))

/-! ## Request Signer (client/signing.go) -/

/-- The request fields the signing pipeline reads and writes.  Header
fields hold the `Header.Get` value, with `""` meaning the header is absent
(Go's `Header.Get` returns `""` for missing headers). -/
structure Request where
  method : String
  path : String
  rawQuery : String
  authorization : String
  contentType : String
  xTimestamp : String
  xSignature : String
deriving DecidableEq, Repr

/-- Go `canonicalizeQuery`: split the raw query on `&`, sort the whole
tokens lexicographically, rejoin.  (Go sorts byte-wise; for UTF-8 strings
that is the same order as Lean's code-point lexicographic `≤`.) -/
def canonicalizeQuery (query : String) : String :=
  if query = "" then ""
  else String.intercalate "&" ((query.splitOn "&").mergeSort (fun a b => decide (a ≤ b)))

/-- The fixed list of signed headers with their values on a request, in
the order the Go code iterates them. -/
def headersToSign (req : Request) : List (String × String) :=
  [("authorization", req.authorization),
   ("content-type", req.contentType),
   ("x-timestamp", req.xTimestamp)]

/-- Go `canonicalizeHeaders`: the `name:value` lines for the signed headers that
are present (non-empty), values trimmed, joined by newlines. -/
def canonicalizeHeaders (req : Request) : String :=
  String.intercalate "\n"
    ((headersToSign req).filterMap (fun p =>
      if p.2 ≠ "" then some (p.1 ++ ":" ++ p.2.trim) else none))

/-- Go `createStringToSign`: the six parts (method, path, canonical query,
canonical headers, body hash, timestamp) joined by newlines. -/
def createStringToSign (req : Request) (body : Bytes) (timestamp : Int) : String :=
  let parts : List String :=
    [req.method,
     req.path,
     if req.rawQuery ≠ "" then canonicalizeQuery req.rawQuery else "",
     canonicalizeHeaders req,
     hexEncodeToString (sha256 body),
     formatInt10 timestamp]
  String.intercalate "\n" parts

/-- Go `generateSignature`: lowercase hex HMAC-SHA256 of the string under the
signer's secret. -/
def generateSignature (secret : Bytes) (stringToSign : String) : String :=
  hexEncodeToString (hmacSha256 secret (strBytes stringToSign))

/-- Go `SignRequest` at instant `now` (Go reads `time.Now().Unix()`): set
`X-Timestamp`, canonicalize, then set `X-Signature`. -/
def signRequest (secret : Bytes) (req : Request) (body : Bytes) (now : Int) : Request :=
  let req1 := { req with xTimestamp := formatInt10 now }
  let stringToSign := createStringToSign req1 body now
  { req1 with xSignature := generateSignature secret stringToSign }

/-- Go `VerifySignature` at instant `now`: require an `X-Timestamp` header
that parses, reject when `|now - timestamp| > 300`, then compare the
presented signature with the recomputed one (`hmac.Equal` on the UTF-8
bytes of two strings is exactly string equality). -/
def verifySignature (secret : Bytes) (req : Request) (body : Bytes)
    (signature : String) (now : Int) : Bool :=
  if req.xTimestamp = "" then false
  else
    match parseInt10 req.xTimestamp with
    | none => false
    | some timestamp =>
        if (now - timestamp).natAbs > 300 then false
        else signature == generateSignature secret (createStringToSign req body timestamp)

/-! Spec-side restatement of the canonicalization, written from the spec's
words for the refinement claim: six newline-joined components assembled by
direct concatenation. -/

/-- The spec's header component: `name:value` pairs for exactly
authorization, content-type, x-timestamp that are present and non-empty,
in that fixed order, values whitespace-trimmed, absent headers
contributing nothing. -/
def specHeaderLines (req : Request) : List String :=
  (if req.authorization ≠ "" then ["authorization:" ++ req.authorization.trim] else []) ++
  (if req.contentType ≠ "" then ["content-type:" ++ req.contentType.trim] else []) ++
  (if req.xTimestamp ≠ "" then ["x-timestamp:" ++ req.xTimestamp.trim] else [])

/-- The spec's canonical string: method verbatim, URL path only, raw-query
tokens sorted lexicographically as whole tokens (empty if no query), the
header pairs, the lowercase hex SHA-256 digest of the raw body bytes, and
the decimal Unix timestamp, the six parts newline-joined. -/
def specStringToSign (req : Request) (body : Bytes) (timestamp : Int) : String :=
  req.method ++ "\n" ++
  req.path ++ "\n" ++
  (if req.rawQuery = "" then ""
   else String.intercalate "&" ((req.rawQuery.splitOn "&").mergeSort (fun a b => decide (a ≤ b)))) ++ "\n" ++
  String.intercalate "\n" (specHeaderLines req) ++ "\n" ++
  hexEncodeToString (sha256 body) ++ "\n" ++
  formatInt10 timestamp

/-! ## Admission Controller: token-bucket rate limiter (RateLimiter.Allow).
Go's `float64` arithmetic is modelled over `ℚ`; instants are rational
seconds. -/

/-- The token bucket state (tokens, maxTokens, refillRate, lastRefill). -/
structure RateLimiter where
  tokens : ℚ
  maxTokens : ℚ
  refillRate : ℚ
  lastRefill : ℚ
deriving DecidableEq

/-- Go `NewRateLimiter` with an enabled config: a full bucket whose capacity
is the burst size. -/
def mkRateLimiter (burstSize : Nat) (requestsPerSecond : ℚ) (now : ℚ) : RateLimiter :=
  { tokens := burstSize, maxTokens := burstSize,
    refillRate := requestsPerSecond, lastRefill := now }

/-- Go `Allow` at instant `now`: refill by elapsed seconds times the rate,
cap at `maxTokens`, stamp `lastRefill`, then spend one token if at least
one is available.  Returns the admission decision and the updated bucket. -/
def RateLimiter.allow (rl : RateLimiter) (now : ℚ) : Bool × RateLimiter :=
  let elapsed := now - rl.lastRefill
  let refilled := rl.tokens + elapsed * rl.refillRate
  let capped := if refilled > rl.maxTokens then rl.maxTokens else refilled
  if capped ≥ 1 then
    (true, { rl with tokens := capped - 1, lastRefill := now })
  else
    (false, { rl with tokens := capped, lastRefill := now })

/-- Runs `n` consecutive `Allow` calls at the same instant; returns the list of
decisions and the final bucket. -/
def RateLimiter.allowRepeat (rl : RateLimiter) (now : ℚ) : Nat → List Bool × RateLimiter
  | 0 => ([], rl)
  | n + 1 =>
      let p := rl.allow now
      let q := p.2.allowRepeat now n
      (p.1 :: q.1, q.2)

/-! ## Retry Policy (retryTransport.RoundTrip) -/

/-- The outcome of one inner `RoundTrip` call: a transport error or a
response with a status code. -/
inductive RoundTripOutcome where
  | failure
  | response (status : Nat)
deriving DecidableEq, Repr

/-- The loop's exit test: no transport error and status below 500. -/
def RoundTripOutcome.returnable : RoundTripOutcome → Bool
  | .failure => false
  | .response s => s < 500

/-- What one logical call through the retry transport did: the final
outcome, the body each attempt carried, and the sleeps between attempts. -/
structure RetryResult where
  outcome : RoundTripOutcome
  bodiesSeen : List (Option Bytes)
  sleeps : List Nat
deriving DecidableEq, Repr

/-- The retry loop from attempt `i` with `left` further attempts allowed:
re-materialize the body, send, return on success or exhausted budget, else
sleep `retryDelay * 2^i` and continue. -/
def retryGo (inner : Nat → RoundTripOutcome) (retryDelay : Nat)
    (body : Option Bytes) (i : Nat) : Nat → RetryResult
  | 0 => { outcome := inner i, bodiesSeen := [body], sleeps := [] }
  | left + 1 =>
      let out := inner i
      if out.returnable then
        { outcome := out, bodiesSeen := [body], sleeps := [] }
      else
        let r := retryGo inner retryDelay body (i + 1) left
        { outcome := r.outcome, bodiesSeen := body :: r.bodiesSeen,
          sleeps := retryDelay * 2 ^ i :: r.sleeps }

/-- Go `retryTransport.RoundTrip` with `maxRetries` and `retryDelay`, where
`inner k` is what the wrapped transport returns on the `k`-th attempt and
`body` is the request body. -/
def retryRoundTrip (maxRetries retryDelay : Nat) (inner : Nat → RoundTripOutcome)
    (body : Option Bytes) : RetryResult :=
  retryGo inner retryDelay body 0 maxRetries

/-! ## Transport Chain Composer (New, SetRetryPolicy, updateTransportChain) -/

/-- The shape of an `http.RoundTripper` chain.  `defaultBase` is
`http.DefaultTransport`; `custom` is any other user-configured base. -/
inductive Transport where
  | defaultBase
  | custom (id : Nat)
  | signing (inner : Transport)
  | rateLimit (inner : Transport)
  | retry (maxRetries : Nat) (retryDelay : Nat) (inner : Transport)
deriving DecidableEq, Repr

/-- Whether a retry layer occurs anywhere in the chain. -/
def Transport.hasRetry : Transport → Bool
  | .defaultBase => false
  | .custom _ => false
  | .signing t => t.hasRetry
  | .rateLimit t => t.hasRetry
  | .retry _ _ _ => true

/-- Whether a custom base transport occurs anywhere in the chain. -/
def Transport.hasCustom : Transport → Bool
  | .defaultBase => false
  | .custom _ => true
  | .signing t => t.hasCustom
  | .rateLimit t => t.hasCustom
  | .retry _ _ t => t.hasCustom

/-- The client fields the chain-composition methods touch: the HTTP
client's transport (`none` is Go `nil`), and whether `requestSigner` and
`rateLimiter` are non-nil. -/
structure ChainClient where
  transport : Option Transport
  signerOn : Bool
  limiterOn : Bool
deriving DecidableEq, Repr

/-- The middleware wrapping of `New` (lines 60-84): start from the
configured transport (or the default), wrap with signing if enabled, then
wrap with rate limiting if enabled. -/
def newClient (initial : Option Transport) (signerOn limiterOn : Bool) : ChainClient :=
  let t0 := initial.getD .defaultBase
  let t1 := if signerOn then Transport.signing t0 else t0
  let t2 := if limiterOn then Transport.rateLimit t1 else t1
  { transport := some t2, signerOn := signerOn, limiterOn := limiterOn }

/-- Go `SetRetryPolicy`: wrap the current transport (or the default) in a
retry layer. -/
def setRetryPolicy (c : ChainClient) (maxRetries retryDelay : Nat) : ChainClient :=
  { c with transport := some (Transport.retry maxRetries retryDelay (c.transport.getD .defaultBase)) }

/-- Go `updateTransportChain`: rebuild from `http.DefaultTransport`, wrapping
with signing then rate limiting according to the current fields. -/
def updateTransportChain (c : ChainClient) : ChainClient :=
  let t0 := Transport.defaultBase
  let t1 := if c.signerOn then Transport.signing t0 else t0
  let t2 := if c.limiterOn then Transport.rateLimit t1 else t1
  { c with transport := some t2 }

/-- Go `EnableRequestSigning`: install a signer, then rebuild the chain. -/
def enableRequestSigning (c : ChainClient) : ChainClient :=
  updateTransportChain { c with signerOn := true }

/-- Go `DisableRequestSigning`: drop the signer, then rebuild the chain. -/
def disableRequestSigning (c : ChainClient) : ChainClient :=
  updateTransportChain { c with signerOn := false }

/-! Trace semantics for a transport chain, to settle what happens to each
attempt.  Only backoff sleeps advance the clock; the base transport's
responses come from an oracle indexed by the send count. -/

/-- Observable pipeline events: an admission-control gate, a signing with
the timestamp it computes, and a send reaching the base transport. -/
inductive Ev where
  | admission
  | sign (timestamp : Int)
  | send (idx : Nat)
deriving DecidableEq, Repr

/-- Running state of the trace semantics. -/
structure RunSt where
  time : Int
  sends : Nat
  events : List Ev
deriving DecidableEq, Repr

/-- Run a request through a transport chain: signing records a signature
over the current time, rate limiting records an admission, retry loops
with backoff sleeps advancing the clock. -/
def runT (oracle : Nat → RoundTripOutcome) : Transport → RunSt → RoundTripOutcome × RunSt
  | .defaultBase, st =>
      (oracle st.sends,
       { st with sends := st.sends + 1, events := st.events ++ [Ev.send st.sends] })
  | .custom _, st =>
      (oracle st.sends,
       { st with sends := st.sends + 1, events := st.events ++ [Ev.send st.sends] })
  | .signing inner, st =>
      runT oracle inner { st with events := st.events ++ [Ev.sign st.time] }
  | .rateLimit inner, st =>
      runT oracle inner { st with events := st.events ++ [Ev.admission] }
  | .retry maxRetries retryDelay inner, st =>
      retryRun oracle inner retryDelay st 0 maxRetries
where
  /-- The retry loop of `runT`. -/
  retryRun (oracle : Nat → RoundTripOutcome) (inner : Transport) (retryDelay : Nat)
      (st : RunSt) (i : Nat) : Nat → RoundTripOutcome × RunSt
  | 0 => runT oracle inner st
  | left + 1 =>
      let r := runT oracle inner st
      if r.1.returnable then r
      else retryRun oracle inner retryDelay
        { r.2 with time := r.2.time + (retryDelay * 2 ^ i : Nat) } (i + 1) left

/-! ## Token Lifecycle Manager (AuthManager, part_003) -/

/-- What one login round trip produced, as seen by `refreshToken`:
a transport error, a non-200 status, an undecodable envelope, a data
field that is not an object, a missing or non-string token field, or a
token string together with its parsed `exp` claim (`none` when the JWT
expiry cannot be parsed). -/
inductive LoginOutcome where
  | netErr
  | badStatus (code : Nat)
  | badEnvelope
  | badDataFormat
  | noToken
  | ok (token : String) (expClaim : Option Int)
deriving DecidableEq, Repr

/-- Whether the outcome is one of the failure cases. -/
def LoginOutcome.isFailure : LoginOutcome → Bool
  | .ok _ _ => false
  | _ => true

/-- The errors `refreshToken` returns, one per failure path. -/
inductive AuthError where
  | netErr
  | badStatus (code : Nat)
  | badEnvelope
  | badDataFormat
  | noToken
deriving DecidableEq, Repr

/-- The cached token state.  `expiresAt = none` models Go's zero
`time.Time{}`; `some e` models an instant `e` (Unix seconds) constructed
by `time.Unix`/`time.Now().Add`, which is never structurally equal to the
zero value. -/
structure AuthState where
  token : String
  expiresAt : Option Int
deriving DecidableEq, Repr

/-- The state `NewAuthManager` starts from: Go zero values. -/
def initialAuthState : AuthState := { token := "", expiresAt := none }

/-- Go `isTokenValid` at instant `now`: a non-empty token whose expiry is
more than five minutes (300 s) away.  `Before` on the zero time is false
for any modern `now`. -/
def isTokenValid (s : AuthState) (now : Int) : Bool :=
  if s.token = "" then false
  else
    match s.expiresAt with
    | none => false
    | some e => now + 300 < e

/-- Go `refreshToken` at instant `now` with login outcome `o`: double-check
validity, then perform the login; only the success path stores, with the
expiry taken from the parsed claim or falling back to `now + 23h`
(82800 s). -/
def refreshToken (s : AuthState) (now : Int) (o : LoginOutcome) :
    AuthState × Except AuthError String :=
  if isTokenValid s now then (s, .ok s.token)
  else
    match o with
    | .netErr => (s, .error .netErr)
    | .badStatus code => (s, .error (.badStatus code))
    | .badEnvelope => (s, .error .badEnvelope)
    | .badDataFormat => (s, .error .badDataFormat)
    | .noToken => (s, .error .noToken)
    | .ok token expClaim =>
        let expiresAt := expClaim.getD (now + 82800)
        ({ token := token, expiresAt := some expiresAt }, .ok token)

/-- Go `GetToken` at instant `now`: fast-path validity check, else refresh. -/
def getToken (s : AuthState) (now : Int) (o : LoginOutcome) :
    AuthState × Except AuthError String :=
  if isTokenValid s now then (s, .ok s.token)
  else refreshToken s now o

/-- Go `ClearToken`: reset to Go zero values. -/
def clearToken (_ : AuthState) : AuthState := { token := "", expiresAt := none }

/-- One call in a sequential history of the AuthManager. -/
inductive AuthCall where
  | get (now : Int) (o : LoginOutcome)
  | clear
deriving DecidableEq, Repr

/-- Apply one call to the cached state. -/
def authStep (s : AuthState) : AuthCall → AuthState
  | .get now o => (getToken s now o).1
  | .clear => clearToken s

/-- The cached state after a sequence of calls starting from
`NewAuthManager`. -/
def authRun (calls : List AuthCall) : AuthState :=
  calls.foldl authStep initialAuthState

/-! ## Credential Vault glue (security.go Encrypt/Decrypt).  Go strings
are byte slices, so plaintexts and ciphertexts are `Bytes`.  The AES-GCM
AEAD and the URL-safe base64 codec are the Go standard library; they are
parameters satisfying their documented contracts. -/

/-- An AEAD under one fixed key (the key derived by `sha256(password)`
selects the instance): a nonce size, `Seal`, and `Open` (here `opn`)
returning `none` on authentication failure. -/
structure GCMScheme where
  nonceSize : Nat
  aeadSeal : Bytes → Bytes → Bytes
  aeadOpen : Bytes → Bytes → Option Bytes

/-- Go `Encrypt`: empty input short-circuits to empty output; otherwise seal
under a fresh `nonce`, prepend the nonce, base64-encode with `b64enc`.
(The error paths of the Go function — `aes.NewCipher` on a key that is
not 16/24/32 bytes, `cipher.NewGCM`, and a failing random read — cannot
fire with the 32-byte SHA-256 key and a functioning RNG, so the result is
the ciphertext alone, with the nonce a parameter standing for the random
draw.) -/
def encrypt (g : GCMScheme) (b64enc : Bytes → Bytes) (nonce : Bytes)
    (plaintext : Bytes) : Bytes :=
  if plaintext = [] then []
  else b64enc (nonce ++ g.aeadSeal nonce plaintext)

/-- Go `Decrypt`: empty input short-circuits; otherwise base64-decode with
`b64dec`, check the length against the nonce size, split off the nonce,
and open. -/
def decrypt (g : GCMScheme) (b64dec : Bytes → Option Bytes)
    (ciphertext : Bytes) : Except String Bytes :=
  if ciphertext = [] then .ok []
  else
    match b64dec ciphertext with
    | none => .error "failed to decode base64"
    | some data =>
        if data.length < g.nonceSize then .error "ciphertext too short"
        else
          match g.aeadOpen (data.take g.nonceSize) (data.drop g.nonceSize) with
          | none => .error "failed to decrypt"
          | some plaintext => .ok plaintext

/-! ## Concurrent GetToken callers (AuthManager.GetToken / refreshToken).
An interleaving model: each thread runs `GetToken` once; `refreshMutex` is
the lock; a login in flight is the `inLogin` program point.  The login
endpoint's replies come from an oracle indexed by how many logins have
been started. -/

/-- Program points of one `GetToken` caller: before the fast-path check,
waiting on `refreshMutex`, holding it before the double-check, login in
flight, returned a token, or returned an error. -/
inductive TPC where
  | start
  | needLock
  | locked
  | inLogin
  | done (res : String)
  | doneErr
deriving DecidableEq, Repr

/-- Global state of `n` concurrent `GetToken` callers sharing one
`AuthManager`. -/
structure ConcState (n : Nat) where
  auth : AuthState
  lock : Option (Fin n)
  pc : Fin n → TPC
  logins : Nat

/-- All threads at the fast-path check, fresh `NewAuthManager` state. -/
def concInit (n : Nat) : ConcState n :=
  { auth := initialAuthState, lock := none, pc := fun _ => .start, logins := 0 }

/-- One interleaved step at (fixed) instant `now`.  `oracle k` is the
endpoint's reply to the `k`-th login request. -/
inductive ConcStep (n : Nat) (now : Int) (oracle : Nat → LoginOutcome) :
    ConcState n → ConcState n → Prop where
  | fastValid (s : ConcState n) (i : Fin n) :
      s.pc i = .start → isTokenValid s.auth now = true →
      ConcStep n now oracle s { s with pc := Function.update s.pc i (.done s.auth.token) }
  | fastInvalid (s : ConcState n) (i : Fin n) :
      s.pc i = .start → isTokenValid s.auth now = false →
      ConcStep n now oracle s { s with pc := Function.update s.pc i .needLock }
  | acquire (s : ConcState n) (i : Fin n) :
      s.pc i = .needLock → s.lock = none →
      ConcStep n now oracle s
        { s with lock := some i, pc := Function.update s.pc i .locked }
  | doubleValid (s : ConcState n) (i : Fin n) :
      s.pc i = .locked → isTokenValid s.auth now = true →
      ConcStep n now oracle s
        { s with lock := none, pc := Function.update s.pc i (.done s.auth.token) }
  | startLogin (s : ConcState n) (i : Fin n) :
      s.pc i = .locked → isTokenValid s.auth now = false →
      ConcStep n now oracle s
        { s with pc := Function.update s.pc i .inLogin, logins := s.logins + 1 }
  | finishOk (s : ConcState n) (i : Fin n) (tok : String) (claim : Option Int) :
      s.pc i = .inLogin → oracle (s.logins - 1) = .ok tok claim →
      ConcStep n now oracle s
        { s with auth := { token := tok, expiresAt := some (claim.getD (now + 82800)) },
                 lock := none, pc := Function.update s.pc i (.done tok) }
  | finishFail (s : ConcState n) (i : Fin n) :
      s.pc i = .inLogin → (oracle (s.logins - 1)).isFailure = true →
      ConcStep n now oracle s
        { s with lock := none, pc := Function.update s.pc i .doneErr }

/-- States reachable from the initial state by interleaved steps. -/
def ConcReachable (n : Nat) (now : Int) (oracle : Nat → LoginOutcome)
    (s : ConcState n) : Prop :=
  Relation.ReflTransGen (ConcStep n now oracle) (concInit n) s

/-- The `refreshMutex` ownership invariant: a thread between lock
acquisition and lock release (`locked` or `inLogin`) is the lock holder. -/
def lockInv {n : Nat} (s : ConcState n) : Prop :=
  ∀ i, (s.pc i = TPC.locked ∨ s.pc i = TPC.inLogin) → s.lock = some i

/-- The inductive invariant of the expired-token-window scenario: the
endpoint always answers `ok tok claim` (stored expiry `e`), the initial
token is invalid.  At most one login starts; the cache is untouched until
the single login finishes and holds the refreshed token afterwards; every
completed caller got `tok`. -/
def scenInv (n : Nat) (tok : String) (e : Int) (s : ConcState n) : Prop :=
  lockInv s ∧
  s.logins ≤ 1 ∧
  (s.logins = 0 → s.auth = initialAuthState) ∧
  ((∃ i, s.pc i = TPC.inLogin) → s.logins = 1 ∧ s.auth = initialAuthState) ∧
  (s.logins = 1 → (∀ i, s.pc i ≠ TPC.inLogin) →
    s.auth = { token := tok, expiresAt := some e }) ∧
  (∀ i r, s.pc i = TPC.done r → r = tok ∧ s.logins = 1) ∧
  (∀ i, s.pc i ≠ TPC.doneErr)

/-! A concrete one-thread run used to exercise the concurrency theorem:
fast-path check fails, the lock is taken, the login runs, the token is
stored. -/

/-- Initial state of the one-thread run. -/
def c9s0 : ConcState 1 := concInit 1

/-- After the failed fast-path check. -/
def c9s1 : ConcState 1 := { c9s0 with pc := Function.update c9s0.pc 0 TPC.needLock }

/-- After acquiring the refresh lock. -/
def c9s2 : ConcState 1 :=
  { c9s1 with lock := some 0, pc := Function.update c9s1.pc 0 TPC.locked }

/-- With the login in flight. -/
def c9s3 : ConcState 1 :=
  { c9s2 with pc := Function.update c9s2.pc 0 TPC.inLogin, logins := c9s2.logins + 1 }

/-- After the login stores token "tk". -/
def c9s4 : ConcState 1 :=
  { c9s3 with
    auth := { token := "tk", expiresAt := some ((none : Option Int).getD (0 + 82800)) },
    lock := none, pc := Function.update c9s3.pc 0 (TPC.done "tk") }

/-- Sum of the first `k` backoff sleeps taken from global attempt index
`i`: `d * 2^(i+j)` for `j < k`. -/
def sleepSum (d i : Nat) : Nat → Nat
  | 0 => 0
  | k + 1 => sleepSum d i k + d * 2 ^ (i + k)

/-- Whether a call's login outcome, if successful, carries a non-empty
token string. -/
def AuthCall.okTokenNonempty : AuthCall → Bool
  | .get _ (.ok tok _) => !(tok == "")
  | _ => true

/-! # Theorems -/

/-! ## C10: signing toggles rebuild the chain from the default base -/

/-- C10: after any `EnableRequestSigning` or `DisableRequestSigning` call,
the transport chain is rebuilt from `http.DefaultTransport`: it is at most
a rate-limit layer over at most a signing layer over the default base, so
no retry layer and no custom base transport remains in the chain. -/
theorem claim_C10 (c c' : ChainClient)
    (h : c' = enableRequestSigning c ∨ c' = disableRequestSigning c) :
    ∃ t, c'.transport = some t ∧
      (t = .defaultBase ∨ t = .signing .defaultBase ∨
       t = .rateLimit .defaultBase ∨ t = .rateLimit (.signing .defaultBase)) ∧
      t.hasRetry = false ∧ t.hasCustom = false := by
  rcases h with h | h <;> subst h <;>
    simp only [enableRequestSigning, disableRequestSigning, updateTransportChain] <;>
    cases hl : c.limiterOn <;> cases hs : c.signerOn <;>
    simp [Transport.hasRetry, Transport.hasCustom]

/-- C10 witness: disabling signing on a client that had a retry layer over
a custom base leaves neither in the rebuilt chain. -/
theorem claim_C10_witness :
    ∃ t, (disableRequestSigning
        { transport := some (.retry 3 1 (.custom 0)), signerOn := true,
          limiterOn := true } : ChainClient).transport = some t ∧
      (t = .defaultBase ∨ t = .signing .defaultBase ∨
       t = .rateLimit .defaultBase ∨ t = .rateLimit (.signing .defaultBase)) ∧
      t.hasRetry = false ∧ t.hasCustom = false :=
  claim_C10
    { transport := some (.retry 3 1 (.custom 0)), signerOn := true, limiterOn := true }
    _ (Or.inr rfl)

/-! ## C1: layering of the composed transport chain.

The spec claims outermost-to-innermost order Signing → Admission Control →
Retry → base.  The code composes the opposite way: `New` wraps the base
with signing and then with rate limiting, and `SetRetryPolicy` wraps the
whole current chain in a retry layer, giving Retry → Admission Control →
Signing → base.  The consequences that survive: every retry attempt
re-enters the chain *above* admission control, so each attempt is itself
rate-limited and freshly signed. -/

/-- C1 counterexample: with signing and rate limiting enabled, `New`
followed by `SetRetryPolicy` yields retry over rate-limit over signing
over base — not the claimed signing over rate-limit over retry. -/
theorem claim_C1_counterexample :
    (setRetryPolicy (newClient none true true) 3 1).transport
        = some (.retry 3 1 (.rateLimit (.signing .defaultBase)))
    ∧ (setRetryPolicy (newClient none true true) 3 1).transport
        ≠ some (.signing (.rateLimit (.retry 3 1 .defaultBase))) := by
  constructor
  · rfl
  · decide

theorem sleepSum_shift (d i : Nat) : ∀ k, sleepSum d i (k + 1) = d * 2 ^ i + sleepSum d (i + 1) k := by
  intro k
  induction k with
  | zero => simp [sleepSum]
  | succ j ih =>
      show sleepSum d i (j + 1) + d * 2 ^ (i + (j + 1)) = _
      rw [ih]
      show _ = d * 2 ^ i + (sleepSum d (i + 1) j + d * 2 ^ (i + 1 + j))
      have : i + (j + 1) = i + 1 + j := by omega
      rw [this]
      omega

theorem sleepSum_lt_of_lt (d i : Nat) (hd : 1 ≤ d) :
    ∀ j k, k < j → sleepSum d i k < sleepSum d i j := by
  intro j
  induction j with
  | zero => omega
  | succ m ih =>
      intro k hk
      have hpos : 1 ≤ d * 2 ^ (i + m) :=
        Nat.one_le_iff_ne_zero.mpr (by positivity)
      have hstep : sleepSum d i (m + 1) = sleepSum d i m + d * 2 ^ (i + m) := rfl
      rcases Nat.lt_succ_iff_lt_or_eq.mp hk with h | h
      · have := ih k h
        omega
      · subst h
        omega

theorem runT_rateLimit_signing_base (oracle : Nat → RoundTripOutcome) (st : RunSt) :
    runT oracle (.rateLimit (.signing .defaultBase)) st =
      (oracle st.sends,
       { time := st.time, sends := st.sends + 1,
         events := st.events ++ [Ev.admission, Ev.sign st.time, Ev.send st.sends] }) := by
  simp [runT]

theorem retryRun_zero (oracle : Nat → RoundTripOutcome) (inner : Transport)
    (d : Nat) (st : RunSt) (i : Nat) :
    runT.retryRun oracle inner d st i 0 = runT oracle inner st := by
  simp only [runT.retryRun]

theorem retryRun_succ (oracle : Nat → RoundTripOutcome) (inner : Transport)
    (d : Nat) (st : RunSt) (i left : Nat) :
    runT.retryRun oracle inner d st i (left + 1) =
      (let r := runT oracle inner st
       if r.1.returnable then r
       else runT.retryRun oracle inner d
         { r.2 with time := r.2.time + (d * 2 ^ i : Nat) } (i + 1) left) := by
  simp only [runT.retryRun]

theorem runT_retry_unfold (oracle : Nat → RoundTripOutcome) (m d : Nat)
    (inner : Transport) (st : RunSt) :
    runT oracle (.retry m d inner) st = runT.retryRun oracle inner d st 0 m := by
  simp only [runT]

theorem retryRun_rls_spec (oracle : Nat → RoundTripOutcome) (d : Nat) :
    ∀ (left i : Nat) (t0 : Int) (ev0 : List Ev),
    ∃ n, 1 ≤ n ∧ n ≤ left + 1 ∧
      runT.retryRun oracle (.rateLimit (.signing .defaultBase)) d
          { time := t0, sends := i, events := ev0 } i left =
        (oracle (i + n - 1),
         { time := t0 + (sleepSum d i (n - 1) : Nat),
           sends := i + n,
           events := ev0 ++ (List.range n).flatMap (fun k =>
             [Ev.admission, Ev.sign (t0 + (sleepSum d i k : Nat)), Ev.send (i + k)]) }) ∧
      (∀ k, k + 1 < n → (oracle (i + k)).returnable = false) ∧
      ((oracle (i + n - 1)).returnable = true ∨ n = left + 1) := by
  intro left
  induction left with
  | zero =>
      intro i t0 ev0
      refine ⟨1, le_refl 1, le_refl 1, ?_, by omega, Or.inr rfl⟩
      rw [retryRun_zero, runT_rateLimit_signing_base]
      simp [sleepSum, List.range_succ]
  | succ m ih =>
      intro i t0 ev0
      by_cases hret : (oracle i).returnable = true
      · refine ⟨1, le_refl 1, by omega, ?_, by omega, Or.inl (by simpa using hret)⟩
        rw [retryRun_succ, runT_rateLimit_signing_base]
        simp [hret, sleepSum, List.range_succ]
      · have hretf : (oracle i).returnable = false := by simpa using hret
        obtain ⟨n', h1, h2, heq, hfail, hlast⟩ :=
          ih (i + 1) (t0 + (d * 2 ^ i : Nat))
            (ev0 ++ [Ev.admission, Ev.sign t0, Ev.send i])
        refine ⟨n' + 1, by omega, by omega, ?_, ?_, ?_⟩
        · rw [retryRun_succ, runT_rateLimit_signing_base]
          simp only [hretf, Bool.false_eq_true, if_false]
          rw [heq]
          have hsum : sleepSum d i n' = d * 2 ^ i + sleepSum d (i + 1) (n' - 1) := by
            rw [← sleepSum_shift]
            congr 1
            omega
          simp only [Prod.mk.injEq, RunSt.mk.injEq]
          refine ⟨congrArg oracle (by omega), ?_, by omega, ?_⟩
          · rw [show n' + 1 - 1 = n' from by omega, hsum]
            push_cast
            ring
          · rw [List.append_assoc]
            refine congrArg _ ?_
            rw [List.range_succ_eq_map, List.flatMap_cons, List.flatMap_map]
            refine congrArg₂ _ ?_ ?_
            · simp [sleepSum]
            · refine congrArg _ ?_
              funext k
              have hsign : t0 + ((d * 2 ^ i : Nat) : Int) + ((sleepSum d (i + 1) k : Nat) : Int)
                  = t0 + ((sleepSum d i (Nat.succ k) : Nat) : Int) := by
                rw [show Nat.succ k = k + 1 from rfl, sleepSum_shift]
                push_cast
                ring
              have hsend : i + 1 + k = i + Nat.succ k := by omega
              rw [hsign, hsend]
        · intro k hk
          match k with
          | 0 => simpa using hretf
          | j + 1 =>
              have hf := hfail j (by omega)
              have hidx : i + (j + 1) = i + 1 + j := by omega
              rw [hidx]
              exact hf
        · rcases hlast with h | h
          · left
            have hidx : i + 1 + n' - 1 = i + (n' + 1) - 1 := by omega
            rwa [hidx] at h
          · right
            omega

/-- C1 (amended): the composed chain, outermost (applied first) to
innermost, is Retry (once `SetRetryPolicy` is called) → Admission Control
→ Signing → base transport; the rate limiter gates each request before it
is signed, and every retry attempt re-enters the chain above admission
control, so each attempt is itself admission-controlled and carries a
freshly computed timestamp and signature (timestamps strictly increase
across attempts for any positive backoff delay). -/
theorem claim_C1_amended (maxRetries d : Nat) (oracle : Nat → RoundTripOutcome) (t0 : Int) :
    (setRetryPolicy (newClient none true true) maxRetries d).transport
        = some (.retry maxRetries d (.rateLimit (.signing .defaultBase)))
    ∧ ∃ n, 1 ≤ n ∧ n ≤ maxRetries + 1 ∧
      runT oracle (.retry maxRetries d (.rateLimit (.signing .defaultBase)))
          { time := t0, sends := 0, events := [] } =
        (oracle (n - 1),
         { time := t0 + (sleepSum d 0 (n - 1) : Nat),
           sends := n,
           events := (List.range n).flatMap (fun k =>
             [Ev.admission, Ev.sign (t0 + (sleepSum d 0 k : Nat)), Ev.send k]) })
      ∧ (∀ k, k + 1 < n → (oracle k).returnable = false)
      ∧ ((oracle (n - 1)).returnable = true ∨ n = maxRetries + 1)
      ∧ (1 ≤ d → ∀ j k, k < j → j < n →
          t0 + (sleepSum d 0 k : Nat) < t0 + (sleepSum d 0 j : Nat)) := by
  refine ⟨rfl, ?_⟩
  obtain ⟨n, h1, h2, heq, hfail, hlast⟩ := retryRun_rls_spec oracle d maxRetries 0 t0 []
  refine ⟨n, h1, h2, ?_, by simpa using hfail, by simpa using hlast, ?_⟩
  · rw [runT_retry_unfold, heq]
    simp
  · intro hd j k hkj _
    have := sleepSum_lt_of_lt d 0 hd j k hkj
    omega

/-- C1 amended witness: a first attempt that returns 200 goes through
exactly one admission-sign-send triple with the starting timestamp. -/
theorem claim_C1_amended_witness :
    runT (fun _ => .response 200) (.retry 3 1 (.rateLimit (.signing .defaultBase)))
        { time := 5, sends := 0, events := [] } =
      (.response 200,
       { time := 5, sends := 1, events := [Ev.admission, Ev.sign 5, Ev.send 0] }) := by
  obtain ⟨-, n, h1, h2, heq, hfail, hlast, -⟩ :=
    claim_C1_amended 3 1 (fun _ => .response 200) 5
  have hn : n = 1 := by
    by_contra hne
    have := hfail 0 (by omega)
    simp [RoundTripOutcome.returnable] at this
  subst hn
  rw [heq]
  simp [sleepSum, List.range_succ]


/-! ## C2: the AuthManager cached-state invariant.

The spec claims `value == "" ⟺ expiresAt == zero` in every reachable
state.  The code violates it: a 200 login response whose `token` field is
the empty string passes the `.(string)` type assertion, the JWT expiry
parse of `""` fails, and the fallback stores the empty token with expiry
`now + 23h` — an empty value with a non-zero expiry.  The invariant does
hold whenever every successful login response carries a non-empty token. -/

/-- C2 counterexample: after `GetToken` against a 200 login response with
an empty `token` field, the cached value is empty but the cached expiry is
not the zero timestamp. -/
theorem claim_C2_counterexample :
    ¬ ((authRun [.get 0 (.ok "" none)]).token = "" ↔
       (authRun [.get 0 (.ok "" none)]).expiresAt = none) := by
  decide

/-- One call preserves the amended invariant when a successful outcome
never carries an empty token. -/
theorem authStep_inv (s : AuthState) (c : AuthCall)
    (hc : c.okTokenNonempty = true)
    (hs : s.token = "" ↔ s.expiresAt = none) :
    (authStep s c).token = "" ↔ (authStep s c).expiresAt = none := by
  cases c with
  | clear => simp [authStep, clearToken]
  | get now o =>
      simp only [authStep, getToken]
      by_cases hv : isTokenValid s now = true
      · simp [hv, hs]
      · simp only [Bool.not_eq_true] at hv
        simp only [hv, Bool.false_eq_true, if_false, refreshToken]
        cases o with
        | ok tok claim =>
            simp only [AuthCall.okTokenNonempty, Bool.not_eq_eq_eq_not,
              Bool.not_true] at hc
            simp only [hv, Bool.false_eq_true, if_false]
            constructor
            · intro h
              exact absurd (by simpa using h) (by simpa using hc)
            · intro h
              simp at h
        | netErr => simp [hv, hs]
        | badStatus code => simp [hv, hs]
        | badEnvelope => simp [hv, hs]
        | badDataFormat => simp [hv, hs]
        | noToken => simp [hv, hs]

/-- C2 (amended): in every reachable state of the AuthManager — after any
sequence of NewAuthManager, GetToken, and ClearToken calls in which every
successful login response carries a non-empty token string — the cached
token value is the empty string if and only if the cached expiry is the
zero timestamp. -/
theorem claim_C2_amended (calls : List AuthCall)
    (h : ∀ c ∈ calls, c.okTokenNonempty = true) :
    (authRun calls).token = "" ↔ (authRun calls).expiresAt = none := by
  have main : ∀ (cs : List AuthCall) (s : AuthState),
      (∀ c ∈ cs, c.okTokenNonempty = true) →
      (s.token = "" ↔ s.expiresAt = none) →
      ((cs.foldl authStep s).token = "" ↔ (cs.foldl authStep s).expiresAt = none) := by
    intro cs
    induction cs with
    | nil => intro s _ hs; simpa using hs
    | cons c rest ih =>
        intro s hcs hs
        rw [List.foldl_cons]
        exact ih (authStep s c) (fun x hx => hcs x (List.mem_cons_of_mem c hx))
          (authStep_inv s c (hcs c (List.mem_cons_self c rest)) hs)
  exact main calls initialAuthState h (by simp [initialAuthState])

/-- C2 amended witness: a refresh storing token "tk" then a clear ends in
the empty-and-zero state, satisfying the invariant. -/
theorem claim_C2_amended_witness :
    (authRun [.get 0 (.ok "tk" none), .clear]).token = "" ↔
    (authRun [.get 0 (.ok "tk" none), .clear]).expiresAt = none :=
  claim_C2_amended [.get 0 (.ok "tk" none), .clear] (by decide)

/-! ## C3: a failed refresh never mutates cached state -/

/-- C3: whenever a GetToken refresh attempt fails — network error,
non-200 status, undecodable envelope, bad data format, or missing token —
the cached state is exactly what it was before the call, both through
`GetToken` and through `refreshToken` directly; when the cached token is
invalid the call surfaces an error, and a subsequent `GetToken` against a
successful login response succeeds fresh. -/
theorem claim_C3 (s : AuthState) (now : Int) (o : LoginOutcome)
    (h : o.isFailure = true) :
    (getToken s now o).1 = s ∧
    (refreshToken s now o).1 = s ∧
    (isTokenValid s now = false → ∃ e, (getToken s now o).2 = .error e) ∧
    (∀ tok claim, isTokenValid s now = false →
       (getToken s now (.ok tok claim)).2 = .ok tok) := by
  by_cases hv : isTokenValid s now = true
  · refine ⟨?_, ?_, ?_, ?_⟩
    · simp [getToken, hv]
    · simp [refreshToken, hv]
    · intro hf; rw [hv] at hf; exact absurd hf (by simp)
    · intro tok claim hf; rw [hv] at hf; exact absurd hf (by simp)
  · simp only [Bool.not_eq_true] at hv
    refine ⟨?_, ?_, ?_, ?_⟩
    · cases o <;> simp [getToken, refreshToken, hv] <;> simp [LoginOutcome.isFailure] at h
    · cases o <;> simp [refreshToken, hv] <;> simp [LoginOutcome.isFailure] at h
    · intro _
      cases o <;> simp [getToken, refreshToken, hv] <;> simp [LoginOutcome.isFailure] at h
    · intro tok claim _
      simp [getToken, refreshToken, hv]

/-- C3 witness: a network-failed refresh on a fresh manager leaves the
initial state untouched, and a following successful login returns the new
token. -/
theorem claim_C3_witness :
    (getToken initialAuthState 0 .netErr).1 = initialAuthState ∧
    (getToken initialAuthState 0 (.ok "tk" none)).2 = .ok "tk" := by
  have h := claim_C3 initialAuthState 0 .netErr (by decide)
  exact ⟨h.1, h.2.2.2 "tk" none (by decide)⟩



/-! ## C5: the token-bucket admission check -/

/-- Behaviour of `Allow` at an instant equal to `lastRefill` on an un-overfull bucket:
it admits and spends one token exactly when at least one is available. -/
theorem allow_now (t M R now : ℚ) (h1 : t ≤ M) :
    RateLimiter.allow ⟨t, M, R, now⟩ now =
      (if 1 ≤ t then (true, ⟨t - 1, M, R, now⟩) else (false, ⟨t, M, R, now⟩)) := by
  simp only [RateLimiter.allow, sub_self, zero_mul, add_zero]
  rw [if_neg (show ¬ t > M by simp only [gt_iff_lt, not_lt]; linarith)]

/-- Spending the whole (integer) content of an un-overfull bucket with
back-to-back calls: every call admits and the bucket ends empty. -/
theorem allowRepeat_drain (M R now : ℚ) :
    ∀ m : Nat, (m : ℚ) ≤ M →
      RateLimiter.allowRepeat ⟨(m : ℚ), M, R, now⟩ now m
        = (List.replicate m true, ⟨0, M, R, now⟩) := by
  intro m
  induction m with
  | zero => intro _; simp [RateLimiter.allowRepeat]
  | succ k ih =>
      intro hle
      have hk : ((k : ℚ)) ≤ M := by push_cast at hle ⊢; linarith
      have h1 : (1 : ℚ) ≤ ((k + 1 : Nat) : ℚ) := by push_cast; linarith [Nat.cast_nonneg (α := ℚ) k]
      simp only [RateLimiter.allowRepeat]
      rw [allow_now _ _ _ _ hle, if_pos h1]
      have hsub : ((k + 1 : Nat) : ℚ) - 1 = (k : ℚ) := by push_cast; ring
      rw [hsub, ih hk]
      simp [List.replicate_succ]

/-- C5: each `Allow()` call sets the token count to
`min(capacity, tokens + elapsed * refillRate)` and `lastRefill` to `now`,
then admits — decrementing by one — exactly when at least one token is
available; consequently a full bucket of capacity `C` admits `C`
immediate calls, denies the next, and admits a later call exactly when at
least `1/R` seconds have elapsed since the bucket emptied. -/
theorem claim_C5 :
    (∀ (rl : RateLimiter) (now : ℚ),
      ((rl.allow now).1 = true ↔
        1 ≤ min rl.maxTokens (rl.tokens + (now - rl.lastRefill) * rl.refillRate)) ∧
      (rl.allow now).2.lastRefill = now ∧
      (rl.allow now).2.maxTokens = rl.maxTokens ∧
      (rl.allow now).2.refillRate = rl.refillRate ∧
      (rl.allow now).2.tokens =
        (if 1 ≤ min rl.maxTokens (rl.tokens + (now - rl.lastRefill) * rl.refillRate)
         then min rl.maxTokens (rl.tokens + (now - rl.lastRefill) * rl.refillRate) - 1
         else min rl.maxTokens (rl.tokens + (now - rl.lastRefill) * rl.refillRate))) ∧
    (∀ (C : Nat) (R t0 : ℚ), 1 ≤ C → 0 < R →
      ((mkRateLimiter C R t0).allowRepeat t0 C).1 = List.replicate C true ∧
      (((mkRateLimiter C R t0).allowRepeat t0 C).2.allow t0).1 = false ∧
      (∀ Δ : ℚ, 0 ≤ Δ →
        ((((mkRateLimiter C R t0).allowRepeat t0 C).2.allow (t0 + Δ)).1 = true ↔
          1 / R ≤ Δ))) := by
  constructor
  · intro rl now
    have hmin : min rl.maxTokens (rl.tokens + (now - rl.lastRefill) * rl.refillRate)
        = (if rl.tokens + (now - rl.lastRefill) * rl.refillRate > rl.maxTokens
           then rl.maxTokens
           else rl.tokens + (now - rl.lastRefill) * rl.refillRate) := by
      rcases le_or_lt (rl.tokens + (now - rl.lastRefill) * rl.refillRate) rl.maxTokens
        with h | h
      · rw [if_neg (by linarith), min_eq_right h]
      · rw [if_pos h, min_eq_left (le_of_lt h)]
    simp only [RateLimiter.allow, ← hmin]
    rcases le_or_lt 1 (min rl.maxTokens (rl.tokens + (now - rl.lastRefill) * rl.refillRate))
      with h | h
    · rw [if_pos h, if_pos h]
      simp [h]
    · rw [if_neg (not_le.mpr h), if_neg (not_le.mpr h)]
      simp [h, not_le.mpr h]
  · intro C R t0 hC hR
    have hC' : (1 : ℚ) ≤ (C : ℚ) := by exact_mod_cast hC
    have hdrain := allowRepeat_drain (C : ℚ) R t0 C (le_refl _)
    have hmk : mkRateLimiter C R t0 = ⟨(C : ℚ), (C : ℚ), R, t0⟩ := rfl
    rw [hmk, hdrain]
    refine ⟨rfl, ?_, ?_⟩
    · rw [allow_now 0 (C : ℚ) R t0 (by linarith)]
      rw [if_neg (by norm_num)]
    · intro Δ hΔ
      have hiff : (1 : ℚ) / R ≤ Δ ↔ 1 ≤ Δ * R := by
        rw [div_le_iff hR]
      simp only [RateLimiter.allow]
      have helapsed : t0 + Δ - t0 = Δ := by ring
      rw [helapsed]
      simp only [zero_add]
      rcases le_or_lt (Δ * R) (C : ℚ) with hc | hc
      · rw [show (if Δ * R > (C : ℚ) then (C : ℚ) else Δ * R) = Δ * R from
          if_neg (by simp only [gt_iff_lt, not_lt]; linarith)]
        rcases le_or_lt 1 (Δ * R) with h1 | h1
        · rw [if_pos (show Δ * R ≥ 1 from h1)]
          exact iff_of_true rfl (hiff.mpr h1)
        · rw [if_neg (show ¬ Δ * R ≥ 1 from not_le.mpr h1)]
          exact iff_of_false (by simp) (fun hd => absurd (hiff.mp hd) (not_le.mpr h1))
      · rw [show (if Δ * R > (C : ℚ) then (C : ℚ) else Δ * R) = (C : ℚ) from if_pos hc]
        rw [if_pos (show (C : ℚ) ≥ 1 from hC')]
        exact iff_of_true rfl (hiff.mpr (by linarith))

/-- C5 witness: capacity 2, rate 1: two immediate admissions, then a
denial, then readmission exactly from one second later. -/
theorem claim_C5_witness :
    ((mkRateLimiter 2 1 0).allowRepeat 0 2).1 = List.replicate 2 true ∧
    (((mkRateLimiter 2 1 0).allowRepeat 0 2).2.allow 0).1 = false ∧
    ((((mkRateLimiter 2 1 0).allowRepeat 0 2).2.allow (0 + 1)).1 = true ↔
      (1 : ℚ) / 1 ≤ 1) := by
  have h := claim_C5.2 2 1 0 (by norm_num) (by norm_num)
  exact ⟨h.1, h.2.1, h.2.2 1 (by norm_num)⟩



/-! ## C4: the retry transport -/

theorem retryGo_zero (inner : Nat → RoundTripOutcome) (d : Nat)
    (body : Option Bytes) (i : Nat) :
    retryGo inner d body i 0 = { outcome := inner i, bodiesSeen := [body], sleeps := [] } := by
  simp [retryGo]

theorem retryGo_succ (inner : Nat → RoundTripOutcome) (d : Nat)
    (body : Option Bytes) (i left : Nat) :
    retryGo inner d body i (left + 1) =
      (if (inner i).returnable then
        { outcome := inner i, bodiesSeen := [body], sleeps := [] }
       else
        { outcome := (retryGo inner d body (i + 1) left).outcome,
          bodiesSeen := body :: (retryGo inner d body (i + 1) left).bodiesSeen,
          sleeps := d * 2 ^ i :: (retryGo inner d body (i + 1) left).sleeps }) := by
  simp [retryGo]

theorem retryGo_spec (inner : Nat → RoundTripOutcome) (d : Nat) (body : Option Bytes) :
    ∀ (left i : Nat),
      (∀ b ∈ (retryGo inner d body i left).bodiesSeen, b = body) ∧
      1 ≤ (retryGo inner d body i left).bodiesSeen.length ∧
      (retryGo inner d body i left).bodiesSeen.length ≤ left + 1 ∧
      (retryGo inner d body i left).sleeps =
        (List.range ((retryGo inner d body i left).bodiesSeen.length - 1)).map
          (fun k => d * 2 ^ (i + k)) ∧
      (retryGo inner d body i left).outcome =
        inner (i + ((retryGo inner d body i left).bodiesSeen.length - 1)) ∧
      ((retryGo inner d body i left).outcome.returnable = true ∨
        (retryGo inner d body i left).bodiesSeen.length = left + 1) ∧
      (∀ k, k + 1 < (retryGo inner d body i left).bodiesSeen.length →
        (inner (i + k)).returnable = false) := by
  intro left
  induction left with
  | zero =>
      intro i
      rw [retryGo_zero]
      refine ⟨by simp, by simp, by simp, by simp, by simp, Or.inr (by simp), by simp⟩
  | succ m ih =>
      intro i
      by_cases hret : (inner i).returnable = true
      · rw [retryGo_succ, if_pos hret]
        refine ⟨by simp, by simp, by simp [Nat.le_add_left], by simp, by simp,
          Or.inl (by simpa using hret), by simp⟩
      · have hretf : (inner i).returnable = false := by simpa using hret
        rw [retryGo_succ, if_neg (by simp [hretf])]
        obtain ⟨hb, hl1, hl2, hs, ho, hror, hfail⟩ := ih (i + 1)
        set r := retryGo inner d body (i + 1) m with hr
        refine ⟨?_, by simp, ?_, ?_, ?_, ?_, ?_⟩
        · intro b hbmem
          rcases List.mem_cons.mp hbmem with h | h
          · exact h
          · exact hb b h
        · simp only [List.length_cons]
          omega
        · simp only [List.length_cons, Nat.add_sub_cancel]
          rw [show r.bodiesSeen.length = (r.bodiesSeen.length - 1) + 1 from by omega]
          rw [List.range_succ_eq_map, List.map_cons, List.map_map]
          rw [hs]
          refine congrArg₂ _ (by simp) ?_
          refine congrArg₂ _ ?_ rfl
          funext k
          show d * 2 ^ (i + 1 + k) = d * 2 ^ (i + Nat.succ k)
          refine congrArg _ (congrArg _ (by omega))
        · simp only [List.length_cons, Nat.add_sub_cancel]
          rw [ho]
          refine congrArg _ (by omega)
        · rcases hror with h | h
          · exact Or.inl h
          · exact Or.inr (by simp [h])
        · intro k hk
          simp only [List.length_cons] at hk
          match k with
          | 0 => simpa using hretf
          | j + 1 =>
              have hf := hfail j (by omega)
              have hidx : i + (j + 1) = i + 1 + j := by omega
              rw [hidx]
              exact hf

/-- C4: any attempt returning without transport error with status in
[200, 500) — including every 4xx — is returned immediately with no
further attempts; every attempt carries the re-materialized original
body; at most `maxRetries + 1` attempts occur; the sleeps between
attempts are `baseDelay * 2^attemptIndex` with attemptIndex from 0; the
final attempt's outcome is returned unconditionally (it is either
returnable or the budget was exhausted); and every non-final attempt had
errored or returned a status ≥ 500. -/
theorem claim_C4 (maxRetries d : Nat) (inner : Nat → RoundTripOutcome) (body : Option Bytes) :
    (∀ s, inner 0 = .response s → 200 ≤ s → s < 500 →
       retryRoundTrip maxRetries d inner body =
         { outcome := .response s, bodiesSeen := [body], sleeps := [] }) ∧
    (∀ b ∈ (retryRoundTrip maxRetries d inner body).bodiesSeen, b = body) ∧
    1 ≤ (retryRoundTrip maxRetries d inner body).bodiesSeen.length ∧
    (retryRoundTrip maxRetries d inner body).bodiesSeen.length ≤ maxRetries + 1 ∧
    (retryRoundTrip maxRetries d inner body).sleeps =
      (List.range ((retryRoundTrip maxRetries d inner body).bodiesSeen.length - 1)).map
        (fun k => d * 2 ^ k) ∧
    (retryRoundTrip maxRetries d inner body).outcome =
      inner ((retryRoundTrip maxRetries d inner body).bodiesSeen.length - 1) ∧
    ((retryRoundTrip maxRetries d inner body).outcome.returnable = true ∨
      (retryRoundTrip maxRetries d inner body).bodiesSeen.length = maxRetries + 1) ∧
    (∀ k, k + 1 < (retryRoundTrip maxRetries d inner body).bodiesSeen.length →
      (inner k).returnable = false) := by
  obtain ⟨hb, hl1, hl2, hs, ho, hror, hfail⟩ := retryGo_spec inner d body maxRetries 0
  simp only [retryRoundTrip]
  refine ⟨?_, hb, hl1, hl2, ?_, ?_, hror, by simpa using hfail⟩
  · intro s hzero h200 h500
    have hret : (inner 0).returnable = true := by
      rw [hzero]
      simp [RoundTripOutcome.returnable, h500]
    cases maxRetries with
    | zero => rw [retryGo_zero, hzero]
    | succ m => rw [retryGo_succ, if_pos hret, hzero]
  · rw [hs]
    refine congrArg₂ _ ?_ rfl
    funext k
    rw [Nat.zero_add]
  · rw [ho, Nat.zero_add]

/-- C4 witness: a 400 response is returned after exactly one observed
request, with no sleeps. -/
theorem claim_C4_witness :
    retryRoundTrip 2 7 (fun _ => .response 400) (some [1, 2]) =
      { outcome := .response 400, bodiesSeen := [some [1, 2]], sleeps := [] } :=
  (claim_C4 2 7 (fun _ => .response 400) (some [1, 2])).1 400 rfl
    (by norm_num) (by norm_num)



/-! ## C8: vault encrypt/decrypt round trip -/

/-- C8: for every non-empty plaintext, `Decrypt(Encrypt(s)) = s` without
error under the same password-derived key (one `GCMScheme` instance per
derived key, with the Go library's AEAD and base64 contracts), and the
empty string is special-cased on both sides: `Encrypt("") = ""` and
`Decrypt("") = ""`, each without error. -/
theorem claim_C8 (g : GCMScheme) (b64enc : Bytes → Bytes) (b64dec : Bytes → Option Bytes)
    (nonce pt : Bytes)
    (hb64 : ∀ b, b64dec (b64enc b) = some b)
    (hopen : ∀ n p, g.aeadOpen n (g.aeadSeal n p) = some p)
    (hnlen : nonce.length = g.nonceSize)
    (hnpos : 0 < g.nonceSize)
    (hencne : ∀ b, b ≠ [] → b64enc b ≠ []) :
    (pt ≠ [] → decrypt g b64dec (encrypt g b64enc nonce pt) = .ok pt) ∧
    encrypt g b64enc nonce [] = [] ∧
    decrypt g b64dec [] = .ok [] := by
  refine ⟨?_, by simp [encrypt], by simp [decrypt]⟩
  intro hpt
  have hnne : nonce ≠ [] := by
    intro h
    rw [h] at hnlen
    simp at hnlen
    omega
  have harg : nonce ++ g.aeadSeal nonce pt ≠ [] := by
    intro h
    exact hnne (List.append_eq_nil.mp h).1
  have hlen : (nonce ++ g.aeadSeal nonce pt).length
      = g.nonceSize + (g.aeadSeal nonce pt).length := by
    rw [List.length_append, hnlen]
  have htake : (nonce ++ g.aeadSeal nonce pt).take g.nonceSize = nonce := by
    rw [← hnlen, List.take_left]
  have hdrop : (nonce ++ g.aeadSeal nonce pt).drop g.nonceSize = g.aeadSeal nonce pt := by
    rw [← hnlen, List.drop_left]
  rw [encrypt, if_neg hpt, decrypt, if_neg (hencne _ harg)]
  simp only [hb64]
  rw [if_neg (show ¬ (nonce ++ g.aeadSeal nonce pt).length < g.nonceSize from by
    rw [hlen]; omega)]
  rw [htake, hdrop, hopen]

/-- C8 witness: a concrete AEAD and codec satisfying the contracts round-
trip the plaintext [1, 2] and special-case the empty string. -/
theorem claim_C8_witness :
    (decrypt ⟨1, fun _ p => p, fun _ c => some c⟩ some
      (encrypt ⟨1, fun _ p => p, fun _ c => some c⟩ id [0] [1, 2]) = .ok [1, 2]) ∧
    encrypt ⟨1, fun _ p => p, fun _ c => some c⟩ id [0] [] = [] ∧
    decrypt ⟨1, fun _ p => p, fun _ c => some c⟩ some [] = .ok [] := by
  have h := claim_C8 ⟨1, fun _ p => p, fun _ c => some c⟩ id some [0] [1, 2]
    (fun _ => rfl) (fun _ _ => rfl) rfl (by norm_num) (fun _ hb => by simpa using hb)
  exact ⟨h.1 (by simp), h.2.1, h.2.2⟩



/-! ## C6: the canonical string to sign -/

theorem canonicalizeHeaders_spec (req : Request) :
    canonicalizeHeaders req = String.intercalate "\n" (specHeaderLines req) := by
  unfold canonicalizeHeaders headersToSign specHeaderLines
  by_cases h1 : req.authorization = "" <;> by_cases h2 : req.contentType = "" <;>
    by_cases h3 : req.xTimestamp = "" <;>
      simp [List.filterMap_cons, h1, h2, h3]

/-- C6: the canonical string is exactly the six newline-joined parts the
spec describes — method verbatim; path only; the raw query's &-delimited
tokens sorted lexicographically as whole tokens (empty if no query); the
name:value pairs for exactly the present, non-empty headers
authorization, content-type, x-timestamp in that order with trimmed
values; the lowercase hex SHA-256 of the raw body bytes; the decimal
timestamp — and the produced signature is the lowercase hex HMAC-SHA256
of that string under the secret. -/
theorem claim_C6 (secret : Bytes) (req : Request) (body : Bytes) (ts : Int) :
    createStringToSign req body ts = specStringToSign req body ts ∧
    generateSignature secret (createStringToSign req body ts) =
      hexEncodeToString (hmacSha256 secret (strBytes (specStringToSign req body ts))) ∧
    (signRequest secret req body ts).xSignature =
      generateSignature secret
        (createStringToSign { req with xTimestamp := formatInt10 ts } body ts) := by
  have hq : (if req.rawQuery ≠ "" then canonicalizeQuery req.rawQuery else "")
      = (if req.rawQuery = "" then ""
         else String.intercalate "&"
           ((req.rawQuery.splitOn "&").mergeSort (fun a b => decide (a ≤ b)))) := by
    by_cases hq0 : req.rawQuery = "" <;> simp [hq0, canonicalizeQuery]
  have hmain : createStringToSign req body ts = specStringToSign req body ts := by
    unfold createStringToSign specStringToSign
    rw [hq, canonicalizeHeaders_spec]
    simp [String.intercalate, String.intercalate.go, String.append_assoc]
  exact ⟨hmain, by rw [hmain]; rfl, rfl⟩



/-! ## C7: sign-then-verify and the replay window -/

theorem digitVal_digitChar (d : Nat) (h : d < 10) :
    digitVal (digitChar d) = some d := by
  interval_cases d <;> decide

theorem digitChar_ne_dash (d : Nat) (h : d < 10) : digitChar d ≠ '-' := by
  interval_cases d <;> decide

theorem digitChar_ne_plus (d : Nat) (h : d < 10) : digitChar d ≠ '+' := by
  interval_cases d <;> decide

theorem natDigitsLE_ne_nil (n : Nat) : natDigitsLE n ≠ [] := by
  rw [natDigitsLE]
  split <;> simp

theorem mem_natDigitsLE (n : Nat) : ∀ c ∈ natDigitsLE n, ∃ d, d < 10 ∧ c = digitChar d := by
  induction n using Nat.strong_induction_on with
  | _ n ih =>
      rw [natDigitsLE]
      split
      · next h =>
          intro c hc
          simp only [List.mem_singleton] at hc
          exact ⟨n, h, hc⟩
      · next h =>
          intro c hc
          rcases List.mem_cons.mp hc with h1 | h1
          · exact ⟨n % 10, Nat.mod_lt _ (by omega), h1⟩
          · exact ih (n / 10) (Nat.div_lt_self (by omega) (by omega)) c h1

theorem parseNatDigits_append (ds es : List Char) :
    ∀ acc, parseNatDigits (ds ++ es) acc =
      match parseNatDigits ds acc with
      | some v => parseNatDigits es v
      | none => none := by
  induction ds with
  | nil => intro acc; rfl
  | cons c cs ih =>
      intro acc
      simp only [List.cons_append, parseNatDigits]
      cases digitVal c with
      | none => rfl
      | some d => exact ih (acc * 10 + d)

theorem parse_natDigitsLE_reverse (n : Nat) :
    ∀ acc, parseNatDigits (natDigitsLE n).reverse acc
      = some (acc * 10 ^ (natDigitsLE n).length + n) := by
  induction n using Nat.strong_induction_on with
  | _ n ih =>
      intro acc
      rw [natDigitsLE]
      split
      · next h =>
          simp only [List.reverse_singleton, List.length_singleton, parseNatDigits,
            digitVal_digitChar n h]
          norm_num
      · next h =>
          simp only [List.reverse_cons, List.length_cons]
          rw [parseNatDigits_append]
          rw [ih (n / 10) (Nat.div_lt_self (by omega) (by omega)) acc]
          simp only [parseNatDigits, digitVal_digitChar (n % 10) (Nat.mod_lt _ (by omega))]
          have hmod : (acc * 10 ^ (natDigitsLE (n / 10)).length + n / 10) * 10 + n % 10
              = acc * 10 ^ ((natDigitsLE (n / 10)).length + 1) + n := by
            have hdm : n / 10 * 10 + n % 10 = n := by omega
            calc (acc * 10 ^ (natDigitsLE (n / 10)).length + n / 10) * 10 + n % 10
                = acc * (10 ^ (natDigitsLE (n / 10)).length * 10) + (n / 10 * 10 + n % 10) := by
                  ring
              _ = acc * 10 ^ ((natDigitsLE (n / 10)).length + 1) + n := by
                  rw [hdm, pow_succ]
          rw [hmod]

theorem parseInt10_natRepr10 (m : Nat) : parseInt10 (natRepr10 m) = some (m : Int) := by
  have hne := natDigitsLE_ne_nil m
  rcases hdl : (natDigitsLE m).reverse with _ | ⟨c, cs⟩
  · exact absurd (by simpa using congrArg List.reverse hdl) hne
  · have hcmem : c ∈ natDigitsLE m := by
      rw [← List.mem_reverse, hdl]
      exact List.mem_cons_self c cs
    obtain ⟨d, hd10, rfl⟩ := mem_natDigitsLE m c hcmem
    have hdata : (natRepr10 m).data = digitChar d :: cs := by
      show (natDigitsLE m).reverse = _
      exact hdl
    have hp := parse_natDigitsLE_reverse m 0
    rw [hdl] at hp
    simp only [Nat.zero_mul, Nat.zero_add] at hp
    unfold parseInt10
    rw [hdata]
    simp [digitChar_ne_dash d hd10, digitChar_ne_plus d hd10, hp]

theorem data_append_string (a b : String) : (a ++ b).data = a.data ++ b.data :=
  String.data_append a b

theorem parseInt10_formatInt10 (t : Int) : parseInt10 (formatInt10 t) = some t := by
  by_cases ht : t < 0
  · rw [formatInt10, if_pos ht]
    have hdata : ("-" ++ natRepr10 t.natAbs).data
        = '-' :: (natDigitsLE t.natAbs).reverse := by
      rw [data_append_string]
      rfl
    have hrevne : (natDigitsLE t.natAbs).reverse ≠ [] := by
      simpa using natDigitsLE_ne_nil t.natAbs
    have hp := parse_natDigitsLE_reverse t.natAbs 0
    simp only [Nat.zero_mul, Nat.zero_add] at hp
    have habs : -((t.natAbs : Nat) : Int) = t := by omega
    unfold parseInt10
    rw [hdata]
    simp [hrevne, hp]
    rw [abs_of_neg ht]
    ring
  · rw [formatInt10, if_neg ht]
    rw [parseInt10_natRepr10]
    have : ((t.toNat : Nat) : Int) = t := by omega
    rw [this]

theorem formatInt10_ne_empty (t : Int) : formatInt10 t ≠ "" := by
  intro h
  have hd := congrArg String.data h
  rw [formatInt10] at hd
  by_cases ht : t < 0
  · rw [if_pos ht, data_append_string] at hd
    simp at hd
  · rw [if_neg ht] at hd
    have hrev : (natDigitsLE t.toNat).reverse = [] := hd
    exact natDigitsLE_ne_nil t.toNat (by simpa using hrev)

/-- C7: after `SignRequest` sets `X-Timestamp` and `X-Signature`,
`VerifySignature` on the unmodified request, body, and produced signature
returns true at any instant within 300 seconds of the recorded timestamp,
and false whenever the absolute difference between the verification
instant and the timestamp exceeds 300 seconds. -/
theorem claim_C7 (secret : Bytes) (req : Request) (body : Bytes) (t now : Int) :
    ((now - t).natAbs ≤ 300 →
      verifySignature secret (signRequest secret req body t) body
        (signRequest secret req body t).xSignature now = true) ∧
    (300 < (now - t).natAbs →
      verifySignature secret (signRequest secret req body t) body
        (signRequest secret req body t).xSignature now = false) := by
  have hts : (signRequest secret req body t).xTimestamp = formatInt10 t := rfl
  have hsig : (signRequest secret req body t).xSignature =
      generateSignature secret (createStringToSign
        { req with xTimestamp := formatInt10 t } body t) := rfl
  have hcanon : createStringToSign (signRequest secret req body t) body t =
      createStringToSign { req with xTimestamp := formatInt10 t } body t := rfl
  constructor
  · intro h
    unfold verifySignature
    rw [hts, if_neg (formatInt10_ne_empty t), parseInt10_formatInt10]
    simp only []
    rw [if_neg (by omega)]
    rw [hsig, hcanon]
    simp
  · intro h
    unfold verifySignature
    rw [hts, if_neg (formatInt10_ne_empty t), parseInt10_formatInt10]
    simp only []
    rw [if_pos (by omega)]

/-- C7 witness: verification of a freshly signed request succeeds at the
signing instant and fails 301 seconds later. -/
theorem claim_C7_witness :
    (verifySignature [] (signRequest [] ⟨"GET", "/x", "", "", "", "", ""⟩ [] 1000) []
      (signRequest [] ⟨"GET", "/x", "", "", "", "", ""⟩ [] 1000).xSignature 1000 = true) ∧
    (verifySignature [] (signRequest [] ⟨"GET", "/x", "", "", "", "", ""⟩ [] 1000) []
      (signRequest [] ⟨"GET", "/x", "", "", "", "", ""⟩ [] 1000).xSignature 1301 = false) :=
  ⟨(claim_C7 [] ⟨"GET", "/x", "", "", "", "", ""⟩ [] 1000 1000).1 (by norm_num),
   (claim_C7 [] ⟨"GET", "/x", "", "", "", "", ""⟩ [] 1000 1301).2 (by norm_num)⟩



/-! ## C9: concurrent GetToken callers -/

theorem lockInv_step {n : Nat} {now : Int} {oracle : Nat → LoginOutcome}
    {s s' : ConcState n} (hstep : ConcStep n now oracle s s') (ih : lockInv s) :
    lockInv s' := by
  cases hstep with
  | fastValid i hpc hv =>
      intro j hj
      by_cases hji : j = i
      · subst hji
        simp only [Function.update_same] at hj
        rcases hj with h | h <;> exact absurd h (by simp)
      · simp only [Function.update_noteq hji] at hj
        exact ih j hj
  | fastInvalid i hpc hv =>
      intro j hj
      by_cases hji : j = i
      · subst hji
        simp only [Function.update_same] at hj
        rcases hj with h | h <;> exact absurd h (by simp)
      · simp only [Function.update_noteq hji] at hj
        exact ih j hj
  | acquire i hpc hlock =>
      intro j hj
      by_cases hji : j = i
      · subst hji; rfl
      · simp only [Function.update_noteq hji] at hj
        exact absurd (ih j hj) (by rw [hlock]; simp)
  | doubleValid i hpc hv =>
      intro j hj
      by_cases hji : j = i
      · subst hji
        simp only [Function.update_same] at hj
        rcases hj with h | h <;> exact absurd h (by simp)
      · simp only [Function.update_noteq hji] at hj
        have h1 := ih j hj
        have h2 := ih i (Or.inl hpc)
        rw [h1] at h2
        exact absurd (Option.some.inj h2) hji
  | startLogin i hpc hv =>
      intro j hj
      by_cases hji : j = i
      · subst hji
        exact ih j (Or.inl hpc)
      · simp only [Function.update_noteq hji] at hj
        exact ih j hj
  | finishOk i tok claim hpc horacle =>
      intro j hj
      by_cases hji : j = i
      · subst hji
        simp only [Function.update_same] at hj
        rcases hj with h | h <;> exact absurd h (by simp)
      · simp only [Function.update_noteq hji] at hj
        have h1 := ih j hj
        have h2 := ih i (Or.inr hpc)
        rw [h1] at h2
        exact absurd (Option.some.inj h2) hji
  | finishFail i hpc horacle =>
      intro j hj
      by_cases hji : j = i
      · subst hji
        simp only [Function.update_same] at hj
        rcases hj with h | h <;> exact absurd h (by simp)
      · simp only [Function.update_noteq hji] at hj
        have h1 := ih j hj
        have h2 := ih i (Or.inr hpc)
        rw [h1] at h2
        exact absurd (Option.some.inj h2) hji

theorem lockInv_reachable (n : Nat) (now : Int) (oracle : Nat → LoginOutcome)
    (s : ConcState n) (h : ConcReachable n now oracle s) : lockInv s := by
  induction h with
  | refl =>
      intro i hi
      rcases hi with h | h <;> exact absurd h (by simp [concInit])
  | tail hsteps hstep ih => exact lockInv_step hstep ih



theorem isTokenValid_stored {tok : String} {e : Int} (now : Int) (htok : tok ≠ "")
    (hv : now + 300 < e) :
    isTokenValid { token := tok, expiresAt := some e } now = true := by
  simp [isTokenValid, htok, hv]

theorem scenInv_valid_state {n : Nat} {now : Int} {tok : String} {e : Int}
    {s : ConcState n}
    (ih : scenInv n tok e s) (hv : isTokenValid s.auth now = true) :
    s.auth = { token := tok, expiresAt := some e } ∧ s.logins = 1 ∧
      ∀ j, s.pc j ≠ TPC.inLogin := by
  obtain ⟨hlock, hle, h0, hin, hone, hdone, herr⟩ := ih
  have hnoin : ∀ j, s.pc j ≠ TPC.inLogin := by
    intro j hj
    rw [(hin ⟨j, hj⟩).2] at hv
    simp [isTokenValid, initialAuthState] at hv
  have hne0 : s.logins ≠ 0 := by
    intro h
    rw [h0 h] at hv
    simp [isTokenValid, initialAuthState] at hv
  have h1 : s.logins = 1 := by omega
  exact ⟨hone h1 hnoin, h1, hnoin⟩

theorem scenInv_invalid_locked {n : Nat} {now : Int} {tok : String} {e : Int}
    {s : ConcState n} {i : Fin n} (htok : tok ≠ "") (hvalid : now + 300 < e)
    (ih : scenInv n tok e s) (hpc : s.pc i = TPC.locked)
    (hv : isTokenValid s.auth now = false) :
    s.logins = 0 ∧ s.auth = initialAuthState := by
  obtain ⟨hlock, hle, h0, hin, hone, hdone, herr⟩ := ih
  have h0' : s.logins = 0 := by
    by_contra hne
    have h1 : s.logins = 1 := by omega
    by_cases hex : ∃ j, s.pc j = TPC.inLogin
    · obtain ⟨j, hj⟩ := hex
      have ha := hlock j (Or.inr hj)
      have hb := hlock i (Or.inl hpc)
      rw [ha] at hb
      have hji := Option.some.inj hb
      rw [← hji] at hpc
      rw [hj] at hpc
      exact absurd hpc (by simp)
    · push_neg at hex
      rw [hone h1 hex] at hv
      rw [isTokenValid_stored now htok hvalid] at hv
      exact absurd hv (by simp)
  exact ⟨h0', h0 h0'⟩

theorem scenInv_step {n : Nat} {now : Int} {tok : String} {claim : Option Int}
    (htok : tok ≠ "")
    (hvalid : now + 300 < claim.getD (now + 82800))
    {s s' : ConcState n}
    (hstep : ConcStep n now (fun _ => LoginOutcome.ok tok claim) s s')
    (ih : scenInv n tok (claim.getD (now + 82800)) s) :
    scenInv n tok (claim.getD (now + 82800)) s' := by
  have hlockInv' : lockInv s' := lockInv_step hstep ih.1
  obtain ⟨hlock, hle, h0, hin, hone, hdone, herr⟩ := ih
  cases hstep with
  | fastValid i hpc hv =>
      obtain ⟨hauth, h1, hnoin⟩ :=
        scenInv_valid_state ⟨hlock, hle, h0, hin, hone, hdone, herr⟩ hv
      refine ⟨hlockInv', hle, ?_, ?_, ?_, ?_, ?_⟩
      · intro h
        have h' : s.logins = 0 := h
        omega
      · rintro ⟨j, hj⟩
        by_cases hji : j = i
        · subst hji
          simp only [Function.update_same] at hj
          exact absurd hj (by simp)
        · simp only [Function.update_noteq hji] at hj
          exact absurd hj (hnoin j)
      · intro _ _
        exact hauth
      · intro j r hj
        by_cases hji : j = i
        · subst hji
          simp only [Function.update_same] at hj
          have hr : s.auth.token = r := by
            injection hj
          rw [hauth] at hr
          exact ⟨hr.symm, h1⟩
        · simp only [Function.update_noteq hji] at hj
          exact hdone j r hj
      · intro j
        by_cases hji : j = i
        · subst hji
          simp only [Function.update_same]
          simp
        · simp only [Function.update_noteq hji]
          exact herr j
  | fastInvalid i hpc hv =>
      refine ⟨hlockInv', hle, h0, ?_, ?_, ?_, ?_⟩
      · rintro ⟨j, hj⟩
        by_cases hji : j = i
        · subst hji
          simp only [Function.update_same] at hj
          exact absurd hj (by simp)
        · simp only [Function.update_noteq hji] at hj
          exact hin ⟨j, hj⟩
      · intro h1 hno
        refine hone h1 ?_
        intro j
        by_cases hji : j = i
        · subst hji
          rw [hpc]
          simp
        · have := hno j
          simpa only [Function.update_noteq hji] using this
      · intro j r hj
        by_cases hji : j = i
        · subst hji
          simp only [Function.update_same] at hj
          exact absurd hj (by simp)
        · simp only [Function.update_noteq hji] at hj
          exact hdone j r hj
      · intro j
        by_cases hji : j = i
        · subst hji
          simp only [Function.update_same]
          simp
        · simp only [Function.update_noteq hji]
          exact herr j
  | acquire i hpc hlock0 =>
      refine ⟨hlockInv', hle, h0, ?_, ?_, ?_, ?_⟩
      · rintro ⟨j, hj⟩
        by_cases hji : j = i
        · subst hji
          simp only [Function.update_same] at hj
          exact absurd hj (by simp)
        · simp only [Function.update_noteq hji] at hj
          exact hin ⟨j, hj⟩
      · intro h1 hno
        refine hone h1 ?_
        intro j
        by_cases hji : j = i
        · subst hji
          rw [hpc]
          simp
        · have := hno j
          simpa only [Function.update_noteq hji] using this
      · intro j r hj
        by_cases hji : j = i
        · subst hji
          simp only [Function.update_same] at hj
          exact absurd hj (by simp)
        · simp only [Function.update_noteq hji] at hj
          exact hdone j r hj
      · intro j
        by_cases hji : j = i
        · subst hji
          simp only [Function.update_same]
          simp
        · simp only [Function.update_noteq hji]
          exact herr j
  | doubleValid i hpc hv =>
      obtain ⟨hauth, h1, hnoin⟩ :=
        scenInv_valid_state ⟨hlock, hle, h0, hin, hone, hdone, herr⟩ hv
      refine ⟨hlockInv', hle, ?_, ?_, ?_, ?_, ?_⟩
      · intro h
        have h' : s.logins = 0 := h
        omega
      · rintro ⟨j, hj⟩
        by_cases hji : j = i
        · subst hji
          simp only [Function.update_same] at hj
          exact absurd hj (by simp)
        · simp only [Function.update_noteq hji] at hj
          exact absurd hj (hnoin j)
      · intro _ _
        exact hauth
      · intro j r hj
        by_cases hji : j = i
        · subst hji
          simp only [Function.update_same] at hj
          have hr : s.auth.token = r := by
            injection hj
          rw [hauth] at hr
          exact ⟨hr.symm, h1⟩
        · simp only [Function.update_noteq hji] at hj
          exact hdone j r hj
      · intro j
        by_cases hji : j = i
        · subst hji
          simp only [Function.update_same]
          simp
        · simp only [Function.update_noteq hji]
          exact herr j
  | startLogin i hpc hv =>
      obtain ⟨hl0, hauth0⟩ :=
        scenInv_invalid_locked htok hvalid ⟨hlock, hle, h0, hin, hone, hdone, herr⟩ hpc hv
      refine ⟨hlockInv', ?_, ?_, ?_, ?_, ?_, ?_⟩
      · show s.logins + 1 ≤ 1
        omega
      · intro h
        have h' : s.logins + 1 = 0 := h
        omega
      · rintro ⟨j, hj⟩
        exact ⟨show s.logins + 1 = 1 by omega, hauth0⟩
      · intro _ hno
        have hcontra := hno i
        simp only [Function.update_same] at hcontra
        exact absurd rfl hcontra
      · intro j r hj
        by_cases hji : j = i
        · subst hji
          simp only [Function.update_same] at hj
          exact absurd hj (by simp)
        · simp only [Function.update_noteq hji] at hj
          have := (hdone j r hj).2
          omega
      · intro j
        by_cases hji : j = i
        · subst hji
          simp only [Function.update_same]
          simp
        · simp only [Function.update_noteq hji]
          exact herr j
  | finishOk i tok2 claim2 hpc horacle =>
      obtain rfl : tok2 = tok := by
        injection horacle with h1 h2
        exact h1.symm
      obtain rfl : claim2 = claim := by
        injection horacle with h1 h2
        exact h2.symm
      obtain ⟨hl1, hauth0⟩ := hin ⟨i, hpc⟩
      refine ⟨hlockInv', hle, ?_, ?_, ?_, ?_, ?_⟩
      · intro h
        have h' : s.logins = 0 := h
        omega
      · rintro ⟨j, hj⟩
        by_cases hji : j = i
        · subst hji
          simp only [Function.update_same] at hj
          exact absurd hj (by simp)
        · simp only [Function.update_noteq hji] at hj
          have ha := hlock j (Or.inr hj)
          have hb := hlock i (Or.inr hpc)
          rw [ha] at hb
          exact absurd (Option.some.inj hb) hji
      · intro _ _
        rfl
      · intro j r hj
        by_cases hji : j = i
        · subst hji
          simp only [Function.update_same] at hj
          injection hj with hr
          exact ⟨hr.symm, hl1⟩
        · simp only [Function.update_noteq hji] at hj
          exact hdone j r hj
      · intro j
        by_cases hji : j = i
        · subst hji
          simp only [Function.update_same]
          simp
        · simp only [Function.update_noteq hji]
          exact herr j
  | finishFail i hpc horacle =>
      have : (LoginOutcome.ok tok claim).isFailure = true := horacle
      simp [LoginOutcome.isFailure] at this

theorem scenInv_reachable {n : Nat} {now : Int} {tok : String} {claim : Option Int}
    (htok : tok ≠ "") (hvalid : now + 300 < claim.getD (now + 82800))
    (s : ConcState n)
    (h : ConcReachable n now (fun _ => LoginOutcome.ok tok claim) s) :
    scenInv n tok (claim.getD (now + 82800)) s := by
  induction h with
  | refl =>
      refine ⟨?_, by simp [concInit], fun _ => rfl, ?_, ?_, ?_, ?_⟩
      · intro i hi
        rcases hi with h | h <;> exact absurd h (by simp [concInit])
      · rintro ⟨j, hj⟩
        exact absurd hj (by simp [concInit])
      · intro h1 _
        simp [concInit] at h1
      · intro j r hj
        exact absurd hj (by simp [concInit])
      · intro j
        simp [concInit]
  | tail hsteps hstep ih => exact scenInv_step htok hvalid hstep ih



theorem c9run : ConcReachable 1 0 (fun _ => LoginOutcome.ok "tk" none) c9s4 := by
  have h1 : ConcStep 1 0 (fun _ => LoginOutcome.ok "tk" none) c9s0 c9s1 :=
    ConcStep.fastInvalid c9s0 0 (by decide) (by decide)
  have h2 : ConcStep 1 0 (fun _ => LoginOutcome.ok "tk" none) c9s1 c9s2 :=
    ConcStep.acquire c9s1 0 (by decide) (by decide)
  have h3 : ConcStep 1 0 (fun _ => LoginOutcome.ok "tk" none) c9s2 c9s3 :=
    ConcStep.startLogin c9s2 0 (by decide) (by decide)
  have h4 : ConcStep 1 0 (fun _ => LoginOutcome.ok "tk" none) c9s3 c9s4 :=
    ConcStep.finishOk c9s3 0 "tk" none (by decide) rfl
  exact Relation.ReflTransGen.tail
    (Relation.ReflTransGen.tail
      (Relation.ReflTransGen.tail
        (Relation.ReflTransGen.tail Relation.ReflTransGen.refl h1) h2) h3) h4

/-- C9: in every reachable state of any number of concurrent `GetToken`
callers, at most one login call is in flight (the mutex argument holds
for any endpoint behaviour); and in the expired-token-window scenario —
a fixed instant, the endpoint always answering a fixed non-empty token
whose stored expiry is still valid — at most one login request ever
reaches the endpoint, every caller that completed got exactly the token
stored by that single refresh (so at least one completed caller forces
exactly one login), and no caller fails. -/
theorem claim_C9 (n : Nat) (now : Int) :
    (∀ (oracle : Nat → LoginOutcome) (s : ConcState n),
      ConcReachable n now oracle s →
      ∀ i j, s.pc i = TPC.inLogin → s.pc j = TPC.inLogin → i = j) ∧
    (∀ (tok : String) (claim : Option Int), tok ≠ "" →
      now + 300 < claim.getD (now + 82800) →
      ∀ s, ConcReachable n now (fun _ => LoginOutcome.ok tok claim) s →
        s.logins ≤ 1 ∧
        (∀ i r, s.pc i = TPC.done r → r = tok ∧ s.logins = 1) ∧
        (∀ i, s.pc i ≠ TPC.doneErr)) := by
  constructor
  · intro oracle s h i j hi hj
    have hlockinv := lockInv_reachable n now oracle s h
    have ha := hlockinv i (Or.inr hi)
    have hb := hlockinv j (Or.inr hj)
    rw [ha] at hb
    exact Option.some.inj hb
  · intro tok claim htok hvalid s h
    obtain ⟨hlock, hle, h0, hin, hone, hdone, herr⟩ := scenInv_reachable htok hvalid s h
    exact ⟨hle, hdone, herr⟩

/-- C9 witness: in the concrete one-thread run ending with a stored
token, exactly one login reached the endpoint, the caller got "tk", and
no caller failed. -/
theorem claim_C9_witness :
    c9s4.logins ≤ 1 ∧ ("tk" = "tk" ∧ c9s4.logins = 1) ∧ c9s4.pc 0 ≠ TPC.doneErr := by
  have h := (claim_C9 1 0).2 "tk" none (by decide) (by decide) c9s4 c9run
  exact ⟨h.1, h.2.1 0 "tk" (by decide), h.2.2 0⟩


end AbhiSdk
